import Mathlib

/-!
Shallow embedding of the `boring_math.abstract_algebra.algebras` package.

The repository keeps two coexisting generations of its base classes:

* `algebras/baseset.py` (the "modern" base): `BaseSet.__init__` takes a
  `narrow` function, stores it in `self._narrow`, and `BaseElement.__init__`
  applies `algebra._narrow` to the wrapped rep.  The multiplicative chain
  `magma.py`, `semigroup.py`, `monoid.py`, `group.py` is written against it
  (it passes `narrow=` to `super().__init__` and reads `self._narrow`).
* `algebras/baseset/__init__.py` (the "legacy" base): `BaseSet.__init__`
  takes no arguments, `BaseSet.__call__` builds `type(self)._Element(rep, self)`
  without narrowing, and `BaseElement.__init__` stores the rep unchanged.
  The additive chain `additive_semigroup.py`, `additive_monoid.py`,
  `abelian_group.py` (and through it `ring.py`, `field.py`) only functions
  against this base: its element classes define no `__str__` (abstract in the
  modern base) and its initializers call `super().__init__()` with no
  arguments, and `AbelianGroup` relies on the inherited `__call__` that the
  modern base leaves abstract.

Both bases are embedded below.  Python object identity is modelled by an
`oid : Nat` field allocated from a per-algebra counter, the per-instance
element dict `self._elements` by an insertion-ordered association list whose
lookups use the Python `==` of the key type (a caller-supplied `pyEq`), and
raising by an `Except`-style result paired with the state at raise time.
-/

/-- Exception classes raised by the code under `src/`. -/
inductive PyErr where
  | typeError
  | valueError
  | notImplementedError
  | attributeError
deriving DecidableEq, Repr

/-- A Python element object: its object identity (`oid`), the wrapped
representation `self._rep`, and the identity of the owning algebra object
`self._algebra`. -/
structure Elem (α : Type) where
  oid : Nat
  rep : α
  alg : Nat
deriving DecidableEq, Repr

/-- The operation slots an algebra instance carries after initialization:
`_narrow`, `_mult`, `_one`, `_inv`, `_add`, `_zero`, `_neg`
(`baseset.py` lines 116-124; the legacy base has the same slots minus
`_narrow`, whose field is then simply unused). -/
structure Config (α : Type) where
  narrow : α → α
  mult : Option (α → α → α)
  one : Option α
  inv : Option (α → α)
  add : Option (α → α → α)
  zero : Option α
  neg : Option (α → α)

/-- The mutable state of one concrete algebra instance: its own object
identity, its operation slots, the element registry `self._elements`, and the
allocator for fresh element object identities. -/
structure AlgState (α : Type) where
  algId : Nat
  config : Config α
  registry : List (α × Elem α)
  nextOid : Nat

/-- Lookup in the element dict: scan the entries in insertion order and
return the first whose stored key is Python-`==` to the query. -/
def dictLookup (pyEq : α → α → Bool) (k : α) : List (α × Elem α) → Option (Elem α)
  | [] => none
  | (k₀, e) :: rest => if pyEq k₀ k then some e else dictLookup pyEq k rest

/-- The shared body of every `__call__`:
`self._elements.setdefault(key, Element(rep, self))`.  Python builds the
default element eagerly (consuming an object identity) and `setdefault`
returns the existing entry when the key is present, otherwise inserts the
new element.  `key` is the dict key used and `erep` the rep stored inside
the freshly built element. -/
def registryCall (pyEq : α → α → Bool) (s : AlgState α) (key erep : α) :
    Elem α × AlgState α :=
  let eNew : Elem α := ⟨s.nextOid, erep, s.algId⟩
  let s₁ : AlgState α := { s with nextOid := s.nextOid + 1 }
  match dictLookup pyEq key s.registry with
  | some e => (e, s₁)
  | none => (eNew, { s₁ with registry := s₁.registry ++ [(key, eNew)] })

/-- `Semigroup.__call__` (semigroup.py lines 133-147): the incoming rep is
first narrowed to obtain the dict key, and `SemigroupElement.__init__`
narrows once more through `BaseElement.__init__` (baseset.py line 48). -/
def semigroupCall (pyEq : α → α → Bool) (s : AlgState α) (rep : α) :
    Elem α × AlgState α :=
  let key := s.config.narrow rep
  registryCall pyEq s key (s.config.narrow key)

/-- `Monoid.__call__` (monoid.py lines 90-104): the raw rep is the dict key;
the element's stored rep passes through `BaseElement.__init__`'s narrow. -/
def monoidCall (pyEq : α → α → Bool) (s : AlgState α) (rep : α) :
    Elem α × AlgState α :=
  registryCall pyEq s rep (s.config.narrow rep)

/-- `Group.__call__` (group.py lines 118-132): same shape as `Monoid.__call__`. -/
def groupCall (pyEq : α → α → Bool) (s : AlgState α) (rep : α) :
    Elem α × AlgState α :=
  registryCall pyEq s rep (s.config.narrow rep)

/-- Legacy `BaseSet.__call__` (baseset/__init__.py lines 94-104): raw rep as
key, rep stored unchanged in the element. -/
def baseSetCall (pyEq : α → α → Bool) (s : AlgState α) (rep : α) :
    Elem α × AlgState α :=
  registryCall pyEq s rep rep

/-- Modelled from the spec: `Semigroup.__init__` (semigroup.py line 131) stores
`lambda left, right: compose(partial(mult, left), narrow)(right)` where
`compose` and `partial` come from the external `pythonic_fp.fptools.function`
package, which is not under `src/`.  Per the spec's words, the stored mult
closure "applies narrow to the product". -/
def storedMult (mult : α → α → α) (narrow : α → α) : α → α → α :=
  fun left right => narrow (mult left right)

/-- `Semigroup.__init__` (semigroup.py lines 119-131) on top of
`BaseSet.__init__` (baseset.py lines 116-124). -/
def semigroupInit (algId : Nat) (mult : α → α → α) (narrow : α → α) : AlgState α :=
  { algId := algId
    config :=
      { narrow := narrow, mult := some (storedMult mult narrow), one := none
        inv := none, add := none, zero := none, neg := none }
    registry := []
    nextOid := 0 }

/-- `Monoid.__init__` (monoid.py lines 76-88): `super().__init__(mult=mult)`
leaves `narrow` at its identity default, then stores `one`. -/
def monoidInit (algId : Nat) (mult : α → α → α) (one : α) : AlgState α :=
  { semigroupInit algId mult (fun h => h) with
    config :=
      { (semigroupInit algId mult (fun h => h)).config with one := some one } }

/-- `Group.__init__` (group.py lines 100-116): the monoid initializer plus the
stored inverse function. -/
def groupInit (algId : Nat) (mult : α → α → α) (one : α) (inv : α → α) :
    AlgState α :=
  { monoidInit algId mult one with
    config := { (monoidInit algId mult one).config with inv := some inv } }

/-- `AbelianGroup.__init__` (abelian_group.py lines 85-98) through
`AdditiveMonoid.__init__` and `AdditiveSemigroup.__init__` on the legacy base:
`add`, `zero` and `negate` are stored unchanged; the legacy base has no
narrow slot, so the model's `narrow` field is the identity and unused. -/
def abelianGroupInit (algId : Nat) (add : α → α → α) (zero : α) (neg : α → α) :
    AlgState α :=
  { algId := algId
    config :=
      { narrow := fun h => h, mult := none, one := none, inv := none
        add := some add, zero := some zero, neg := some neg }
    registry := []
    nextOid := 0 }

/-- The parameter names of `AbelianGroup.__init__` (abelian_group.py
lines 85-90). -/
def abelianGroupInitParams : List String :=
  ["self", "add", "zero", "negate"]

/-- The keyword arguments `Ring.__init__` passes to `super().__init__`
(ring.py line 146); `Field.__init__` reaches the same call through
`Ring.__init__`. -/
def ringSuperInitKwargs : List String :=
  ["add", "zero", "negate", "process"]

/-- A Python call accepts its keyword arguments exactly when every keyword
names a parameter of the callee. -/
def pyAcceptsKwargs (params kwargs : List String) : Bool :=
  kwargs.all (fun k => params.contains k)

/-- Python's call protocol: an unexpected keyword argument raises `TypeError`
before the callee body runs. -/
def pyKwargsCall (params kwargs : List String) : Option PyErr :=
  if pyAcceptsKwargs params kwargs then none else some PyErr.typeError

/-- The instance attributes set while initializing a `Magma`
(magma.py lines 123-129 on top of baseset.py lines 116-124): `BaseSet`
binds the `process` argument to its `narrow` parameter and stores it as
`_narrow`; `Magma` then stores `_mult`. -/
def magmaInstanceAttrs : List String :=
  ["_narrow", "_elements", "_mult", "_one", "_inv", "_add", "_zero", "_neg"]

/-- The instance attributes set while initializing a `Ring` or `Field`
(legacy baseset/__init__.py lines 85-92 plus the `_add`, `_zero`, `_neg`,
`_mult`, `_one`, `_inv` assignments along the additive chain and
ring.py/field.py), assuming the `TypeError` of the `process` keyword were
bypassed. -/
def ringInstanceAttrs : List String :=
  ["_elements", "_mult", "_add", "_one", "_zero", "_inv", "_neg"]

/-- The attribute read by `Magma.__call__` (magma.py line 139),
`Ring.__call__` (ring.py line 158) and `Field.__call__` (field.py
line 132): `self._process`. -/
def processAttr : String := "_process"

/-- Reading a missing instance attribute raises `AttributeError`. -/
def pyHasAttr (attrs : List String) (name : String) : Bool :=
  attrs.contains name

/-- `Magma.__call__` (magma.py lines 131-147): it first evaluates
`self._process(rep)`, but no initializer along `Magma`'s chain ever sets
`_process` (`BaseSet.__init__` stores the function as `_narrow`), so the
attribute read raises `AttributeError` before the registry is touched.  The
guarded branch spells out what the body would do with the stored function
were the attribute present. -/
def magmaCall (pyEq : α → α → Bool) (s : AlgState α) (rep : α) :
    Except PyErr (Elem α) × AlgState α :=
  if pyHasAttr magmaInstanceAttrs processAttr then
    let key := s.config.narrow rep
    let p := registryCall pyEq s key (s.config.narrow key)
    (Except.ok p.1, p.2)
  else
    (Except.error PyErr.attributeError, s)

/-- `Ring.__call__` (ring.py lines 150-165) and `Field.__call__` (field.py
lines 124-139): both first evaluate `self._process(rep)`, but nothing on the
legacy base chain sets `_process`, so the attribute read raises
`AttributeError` before the registry is touched. -/
def ringCall (pyEq : α → α → Bool) (s : AlgState α) (rep : α) :
    Except PyErr (Elem α) × AlgState α :=
  if pyHasAttr ringInstanceAttrs processAttr then
    let p := registryCall pyEq s rep rep
    (Except.ok p.1, p.2)
  else
    (Except.error PyErr.attributeError, s)

/-- Modern `BaseElement.__eq__` (baseset.py lines 71-93): `sameClass` is the
outcome of `isinstance(other, type(self))`, `sameType` compares
`type(rep_self) is type(rep_other)`.  The owning algebra is never consulted. -/
def baseEq (pyEq sameType : α → α → Bool) (sameClass : Bool) (a b : Elem α) :
    Bool :=
  if !sameClass then false
  else if a.oid == b.oid then true
  else if pyEq a.rep b.rep then
    if sameType a.rep b.rep then true else false
  else false

/-- Legacy `BaseElement.__eq__` (baseset/__init__.py lines 54-61): as the
modern one but without the runtime-type comparison of the reps. -/
def legacyEq (pyEq : α → α → Bool) (sameClass : Bool) (a b : Elem α) : Bool :=
  if !sameClass then false
  else if a.oid == b.oid then true
  else if pyEq a.rep b.rep then true
  else false

/-- Modern `BaseElement.__neg__` (baseset.py lines 104-106): unconditionally
`raise TypeError('Negation not defined on the algebra')`.  No subclass of the
multiplicative chain overrides it. -/
def baseNeg (s : AlgState α) (_x : Elem α) :
    Except PyErr (Elem α) × AlgState α :=
  (Except.error PyErr.typeError, s)

/-- Legacy `BaseElement.__neg__` (baseset/__init__.py lines 69-70):
unconditionally `raise NotImplementedError('Negation not defined on
algebra.')`.  No subclass of the additive chain (`AdditiveSemigroupElement`,
`AdditiveMonoidElement`, `AbelianGroupElement`, `RingElement`,
`FieldElement`) overrides it, so `-x` on those elements raises this. -/
def legacyNeg (s : AlgState α) (_x : Elem α) :
    Except PyErr (Elem α) × AlgState α :=
  (Except.error PyErr.notImplementedError, s)

/-- `AbelianGroupElement.negate` (abelian_group.py lines 50-57): with no
stored `_neg` closure it raises `ValueError`; otherwise it returns
`type(self)(negate(self()), algebra)` — a freshly constructed element (the
legacy `BaseElement.__init__` stores the rep unchanged), bypassing the
registry. -/
def abelianNegate (s : AlgState α) (x : Elem α) :
    Except PyErr (Elem α) × AlgState α :=
  match s.config.neg with
  | none => (Except.error PyErr.valueError, s)
  | some neg =>
      (Except.ok ⟨s.nextOid, neg x.rep, s.algId⟩,
        { s with nextOid := s.nextOid + 1 })

/-- `GroupElement.invert` (group.py lines 51-70): with no stored `_inv`
closure it raises `ValueError`; otherwise it returns
`type(self)(invert(self()), algebra)` — a freshly constructed element
(the modern `BaseElement.__init__` applies `algebra._narrow` to the rep),
bypassing the registry. -/
def groupInvert (s : AlgState α) (x : Elem α) :
    Except PyErr (Elem α) × AlgState α :=
  match s.config.inv with
  | none => (Except.error PyErr.valueError, s)
  | some inv =>
      (Except.ok ⟨s.nextOid, s.config.narrow (inv x.rep), s.algId⟩,
        { s with nextOid := s.nextOid + 1 })

/-- `SemigroupElement.__mul__`, element branch (semigroup.py lines 62-72):
after `isinstance` succeeds, the operands' algebras are compared by identity;
on mismatch `ValueError`, with a missing `_mult` closure `ValueError`,
otherwise `algebra(mult(self(), other()))`.  `s` is the state of `self`'s
own algebra; `call` is the dynamically dispatched `algebra.__call__`
(`semigroupCall` for semigroup elements, `groupCall` for monoid and group
elements, which inherit this method). -/
def elemMul (pyEq : α → α → Bool)
    (call : (α → α → Bool) → AlgState α → α → Elem α × AlgState α)
    (s : AlgState α) (a b : Elem α) : Except PyErr (Elem α) × AlgState α :=
  if s.algId == b.alg then
    match s.config.mult with
    | some mult =>
        let p := call pyEq s (mult a.rep b.rep)
        (Except.ok p.1, p.2)
    | none => (Except.error PyErr.valueError, s)
  else
    (Except.error PyErr.valueError, s)

/-- `AdditiveSemigroupElement.__add__`, element branch
(additive_semigroup.py lines 60-70): identical shape with the `_add` closure
and the legacy inherited `BaseSet.__call__`. -/
def elemAdd (pyEq : α → α → Bool) (s : AlgState α) (a b : Elem α) :
    Except PyErr (Elem α) × AlgState α :=
  if s.algId == b.alg then
    match s.config.add with
    | some add =>
        let p := baseSetCall pyEq s (add a.rep b.rep)
        (Except.ok p.1, p.2)
    | none => (Except.error PyErr.valueError, s)
  else
    (Except.error PyErr.valueError, s)

/-- `RingElement.__mul__`, element branch (ring.py lines 73-83): same shape,
but the dispatched `algebra(...)` is `Ring.__call__`/`Field.__call__`, which
raises `AttributeError` (see `ringCall`). -/
def ringElemMul (pyEq : α → α → Bool) (s : AlgState α) (a b : Elem α) :
    Except PyErr (Elem α) × AlgState α :=
  if s.algId == b.alg then
    match s.config.mult with
    | some mult => ringCall pyEq s (mult a.rep b.rep)
    | none => (Except.error PyErr.valueError, s)
  else
    (Except.error PyErr.valueError, s)

/-- The loop `while n > 1: r, n = op(r1, r), n - 1` of
`SemigroupElement.__pow__` (semigroup.py lines 109-111),
`MagmaElement.__pow__` (magma.py lines 113-115) and
`AdditiveSemigroupElement.__mul__` (additive_semigroup.py lines 93-95),
with the fixed operand `r1` on the left; the `Nat` argument counts the
remaining iterations. -/
def iterOpFixed (op : α → α → α) (r1 : α) : α → Nat → α
  | r, 0 => r
  | r, n + 1 => iterOpFixed op r1 (op r1 r) n

/-- The loop `while n > 0: r, n = op(r, r1), n - 1` of
`MonoidElement.__pow__` (monoid.py lines 67-69), `GroupElement.__pow__`
(group.py lines 89-91), `RingElement.__pow__` (ring.py lines 118-120),
`FieldElement.__pow__` (field.py lines 81-83) and the repeated-addition
loops, with the accumulator on the left. -/
def powAccLoop (op : α → α → α) : α → α → Nat → α
  | r, _, 0 => r
  | r, r1, n + 1 => powAccLoop op (op r r1) r1 n

/-- The n-fold product `op(...op(op(one, rep), rep)..., rep)` with `n`
occurrences of `rep`, as the claim states it. -/
def nfoldMult (op : α → α → α) (one rep : α) : Nat → α
  | 0 => one
  | n + 1 => op (nfoldMult op one rep n) rep

/-- The product of `k + 1` copies of `a`: `op(...op(op(a, a), a)..., a)`. -/
def nfoldFrom (op : α → α → α) (a : α) : Nat → α
  | 0 => a
  | k + 1 => op (nfoldFrom op a k) a

/-- `SemigroupElement.__pow__` (semigroup.py lines 95-114): for `n <= 0`
`ValueError` is raised before anything else happens; for `n > 0` the result
of the repeated-multiplication loop is handed to `Semigroup.__call__`. -/
def semigroupPow (pyEq : α → α → Bool) (s : AlgState α) (x : Elem α)
    (n : Int) : Except PyErr (Elem α) × AlgState α :=
  if 0 < n then
    match s.config.mult with
    | none => (Except.error PyErr.valueError, s)
    | some mult =>
        let p := semigroupCall pyEq s (iterOpFixed mult x.rep x.rep (n.toNat - 1))
        (Except.ok p.1, p.2)
  else
    (Except.error PyErr.valueError, s)

/-- `MagmaElement.__pow__` (magma.py lines 100-118): as the semigroup one,
but the final registry call is `Magma.__call__` (which raises
`AttributeError`, see `magmaCall`). -/
def magmaPow (pyEq : α → α → Bool) (s : AlgState α) (x : Elem α) (n : Int) :
    Except PyErr (Elem α) × AlgState α :=
  if 0 < n then
    match s.config.mult with
    | none => (Except.error PyErr.valueError, s)
    | some mult =>
        magmaCall pyEq s (iterOpFixed mult x.rep x.rep (n.toNat - 1))
  else
    (Except.error PyErr.valueError, s)

/-- `AdditiveSemigroupElement.__mul__`, `int` branch
(additive_semigroup.py lines 87-99): repeated addition for `n > 0`,
`ValueError` for `n <= 0` with nothing else done. -/
def additiveMulInt (pyEq : α → α → Bool) (s : AlgState α) (x : Elem α)
    (n : Int) : Except PyErr (Elem α) × AlgState α :=
  if 0 < n then
    match s.config.add with
    | none => (Except.error PyErr.valueError, s)
    | some add =>
        let p := baseSetCall pyEq s (iterOpFixed add x.rep x.rep (n.toNat - 1))
        (Except.ok p.1, p.2)
  else
    (Except.error PyErr.valueError, s)

/-- `MonoidElement.__pow__` (monoid.py lines 50-72): for `n >= 0` the
accumulator loop starts from the stored identity and the result is handed to
`Monoid.__call__`; missing `_mult` or `_one` raise `ValueError`, as does
`n < 0`. -/
def monoidPow (pyEq : α → α → Bool) (s : AlgState α) (x : Elem α) (n : Int) :
    Except PyErr (Elem α) × AlgState α :=
  if 0 ≤ n then
    match s.config.mult with
    | none => (Except.error PyErr.valueError, s)
    | some mult =>
        match s.config.one with
        | none => (Except.error PyErr.valueError, s)
        | some one =>
            let p := monoidCall pyEq s (powAccLoop mult one x.rep n.toNat)
            (Except.ok p.1, p.2)
  else
    (Except.error PyErr.valueError, s)

/-- The loop `while n < -1: g, n = g * g_inv, n + 1` of
`GroupElement.__pow__` (group.py lines 94-97); each `g * g_inv` is the
inherited `SemigroupElement.__mul__` dispatching to `Group.__call__`. -/
def groupPowNegLoop (pyEq : α → α → Bool) (s : AlgState α) (g gInv : Elem α) :
    Nat → Except PyErr (Elem α) × AlgState α
  | 0 => (Except.ok g, s)
  | k + 1 =>
      match elemMul pyEq groupCall s g gInv with
      | (Except.ok g₁, s₁) => groupPowNegLoop pyEq s₁ g₁ gInv k
      | (Except.error e, s₁) => (Except.error e, s₁)

/-- `GroupElement.__pow__` (group.py lines 72-97): for `n >= 0` exactly the
monoid loop ending in `Group.__call__`; for `n < 0` it starts from
`self.invert()` (a fresh element) and multiplies it into itself `|n| - 1`
times through the registry. -/
def groupPow (pyEq : α → α → Bool) (s : AlgState α) (x : Elem α) (n : Int) :
    Except PyErr (Elem α) × AlgState α :=
  if 0 ≤ n then
    match s.config.mult with
    | none => (Except.error PyErr.valueError, s)
    | some mult =>
        match s.config.one with
        | none => (Except.error PyErr.valueError, s)
        | some one =>
            let p := groupCall pyEq s (powAccLoop mult one x.rep n.toNat)
            (Except.ok p.1, p.2)
  else
    match groupInvert s x with
    | (Except.ok gInv, s₁) => groupPowNegLoop pyEq s₁ gInv gInv ((-n).toNat - 1)
    | (Except.error e, s₁) => (Except.error e, s₁)

/-- The loop `while n < -1: g, n = g * g_inv, n + 1` of
`FieldElement.__pow__` (field.py lines 87-88); each `g * g_inv` is
`RingElement.__mul__` dispatching to `Field.__call__` (which raises
`AttributeError`). -/
def fieldPowNegLoop (pyEq : α → α → Bool) (s : AlgState α) (g gInv : Elem α) :
    Nat → Except PyErr (Elem α) × AlgState α
  | 0 => (Except.ok g, s)
  | k + 1 =>
      match ringElemMul pyEq s g gInv with
      | (Except.ok g₁, s₁) => fieldPowNegLoop pyEq s₁ g₁ gInv k
      | (Except.error e, s₁) => (Except.error e, s₁)

/-- `FieldElement.__pow__` (field.py lines 57-89): `_mult`, `_one` and `_inv`
are all required up front; for `n >= 0` the accumulator loop ends in
`Field.__call__` (which raises `AttributeError`); for `n < 0` it starts from
a freshly constructed inverse element (the legacy base stores the rep
unchanged). -/
def fieldPow (pyEq : α → α → Bool) (s : AlgState α) (x : Elem α) (n : Int) :
    Except PyErr (Elem α) × AlgState α :=
  match s.config.mult with
  | none => (Except.error PyErr.valueError, s)
  | some mult =>
      match s.config.one with
      | none => (Except.error PyErr.valueError, s)
      | some one =>
          match s.config.inv with
          | none => (Except.error PyErr.valueError, s)
          | some inv =>
              if 0 ≤ n then
                ringCall pyEq s (powAccLoop mult one x.rep n.toNat)
              else
                let gInv : Elem α := ⟨s.nextOid, inv x.rep, s.algId⟩
                let s₁ : AlgState α := { s with nextOid := s.nextOid + 1 }
                fieldPowNegLoop pyEq s₁ gInv gInv ((-n).toNat - 1)

/-- Decidable equality as the Python `==` of a rep type without cross-type
equalities (such as `int`). -/
def deq [DecidableEq α] : α → α → Bool :=
  fun a b => decide (a = b)

/-- A registry is coherent when the element found under a key wraps exactly
that key.  Every state reachable through `groupCall` with the identity
narrow (the only narrow a `Group` can have) is coherent. -/
def Coherent [DecidableEq α] (s : AlgState α) : Prop :=
  ∀ k e, dictLookup deq k s.registry = some e → e.rep = k

/-- Frame predicate for claim C10: the algebra identity and the operation
slots are untouched, and every registry entry visible before is still found,
bound to the identical element object. -/
def RegPreserved (pyEq : α → α → Bool) (s s' : AlgState α) : Prop :=
  s'.algId = s.algId ∧ s'.config = s.config ∧
    ∀ k e, dictLookup pyEq k s.registry = some e →
      dictLookup pyEq k s'.registry = some e

/-- A concrete semigroup instance: `Semigroup(mult=lambda a, b: a + b)` over
`int` reps, with the default identity narrow. -/
def sg1 : AlgState Int :=
  semigroupInit 1 (fun a b => a + b) (fun h => h)

/-- A concrete abelian group instance with a registered negate closure:
`AbelianGroup(add=lambda a, b: a + b, zero=0, negate=lambda a: -a)` over
`int` reps. -/
def agZ : AlgState Int :=
  abelianGroupInit 4 (fun a b => a + b) 0 (fun a => -a)

/-- Two Python runtime types whose values compare equal across the types:
`int` and `bool` (in Python `1 == True` holds while
`type(1) is type(True)` does not). -/
inductive PyV where
  | i (n : Int)
  | b (x : Bool)
deriving DecidableEq, Repr

/-- Python `==` on `PyV` values: `True` equals 1 and `False` equals 0. -/
def pyVEq : PyV → PyV → Bool
  | PyV.i m, PyV.i n => m == n
  | PyV.b x, PyV.b y => x == y
  | PyV.i m, PyV.b y => m == (if y then 1 else 0)
  | PyV.b x, PyV.i n => (if x then 1 else 0) == n

/-- Python `type(a) is type(b)` on `PyV` values. -/
def pyVSameType : PyV → PyV → Bool
  | PyV.i _, PyV.i _ => true
  | PyV.b _, PyV.b _ => true
  | _, _ => false

/-- `Magma.__init__` (magma.py lines 123-129): the `process` argument is
passed positionally to `BaseSet.__init__` (baseset.py line 116), which
stores it under `_narrow`; the raw `mult` is stored unchanged. -/
def magmaInit (algId : Nat) (mult : α → α → α) (process : α → α) :
    AlgState α :=
  { algId := algId
    config :=
      { narrow := process, mult := some mult, one := none, inv := none
        add := none, zero := none, neg := none }
    registry := []
    nextOid := 0 }

/-- The state the mod-7 `Field` of tests/field/test_mod7_field.py would hold
if its construction did not raise: all operation slots granted directly so
the element operators can be evaluated (the test's `invert`, a ValueError on
0, is modelled as returning 0 there — no claim depends on that value). -/
def f7 : AlgState Int :=
  { algId := 9
    config :=
      { narrow := fun h => h
        mult := some (fun a b => (a * b) % 7)
        one := some 1
        inv := some (fun a =>
          if a == 1 then 1 else if a == 2 then 4 else if a == 3 then 5
          else if a == 4 then 2 else if a == 5 then 3
          else if a == 6 then 6 else 0)
        add := some (fun a b => (a + b) % 7)
        zero := some 0
        neg := some (fun a => if 0 < a then (7 - a) % 7 else 0) }
    registry := []
    nextOid := 0 }

/-- The concrete group of the C3 check:
`Group(mult=lambda a, b: (a + b) % 5, one=0, invert=lambda a: (5 - a) % 5)`
over `int` reps, with algebra identity 7. -/
def z5 : AlgState Int :=
  groupInit 7 (fun a b => (a + b) % 5) 0 (fun a => (5 - a) % 5)

/-- The element `z5(2)` and the state after registering it. -/
def z5x : Elem Int := (groupCall deq z5 2).1

/-- The state of `z5` after the call `z5(2)`. -/
def z5s1 : AlgState Int := (groupCall deq z5 2).2

/-- A concrete monoid instance: `Monoid(mult=lambda a, b: (a * b) % 7, one=1)`
over `int` reps. -/
def m7 : AlgState Int :=
  monoidInit 5 (fun a b => (a * b) % 7) 1

/-- A concrete group instance:
`Group(mult=lambda a, b: (a * b) % 7, one=1, invert=lambda a: (a ** 5) % 7)`
over `int` reps (the inverse function's values are irrelevant to the claim). -/
def g7 : AlgState Int :=
  groupInit 6 (fun a b => (a * b) % 7) 1 (fun a => (a * a * a * a * a) % 7)

theorem dictLookup_append_out (pyEq : α → α → Bool) (k : α)
    (L X : List (α × Elem α)) :
    dictLookup pyEq k (L ++ X)
      = (match dictLookup pyEq k L with
         | some e => some e
         | none => dictLookup pyEq k X) := by
  induction L with
  | nil => rfl
  | cons p rest ih =>
      obtain ⟨k₀, e₀⟩ := p
      by_cases h : pyEq k₀ k <;> simp [dictLookup, h, ih]

theorem dictLookup_eq_none_iff (pyEq : α → α → Bool) (k : α)
    (L : List (α × Elem α)) :
    dictLookup pyEq k L = none ↔ ∀ p ∈ L, pyEq p.1 k = false := by
  induction L with
  | nil => simp [dictLookup]
  | cons p rest ih =>
      obtain ⟨k₀, e₀⟩ := p
      by_cases h : pyEq k₀ k <;> simp [dictLookup, h, ih]

theorem dictLookup_eq_some_exists (pyEq : α → α → Bool) (k : α)
    (L : List (α × Elem α)) (e : Elem α) (h : dictLookup pyEq k L = some e) :
    ∃ k₀, (k₀, e) ∈ L ∧ pyEq k₀ k = true := by
  induction L with
  | nil => simp [dictLookup] at h
  | cons p rest ih =>
      obtain ⟨k₀, e₀⟩ := p
      by_cases hk : pyEq k₀ k
      · refine ⟨k₀, ?_, hk⟩
        simp [dictLookup, hk] at h
        simp [h]
      · simp [dictLookup, hk] at h
        obtain ⟨k₁, hmem, hk₁⟩ := ih h
        exact ⟨k₁, by simp [hmem], hk₁⟩

theorem registryCall_hit (pyEq : α → α → Bool) (s : AlgState α)
    (key erep : α) (e : Elem α)
    (h : dictLookup pyEq key s.registry = some e) :
    registryCall pyEq s key erep = (e, { s with nextOid := s.nextOid + 1 }) := by
  simp [registryCall, h]

theorem registryCall_fresh (pyEq : α → α → Bool) (s : AlgState α)
    (key erep : α) (h : dictLookup pyEq key s.registry = none) :
    registryCall pyEq s key erep
      = (⟨s.nextOid, erep, s.algId⟩,
         { s with
            nextOid := s.nextOid + 1
            registry := s.registry ++ [(key, ⟨s.nextOid, erep, s.algId⟩)] }) := by
  simp [registryCall, h]

theorem regPreserved_rfl (pyEq : α → α → Bool) (s : AlgState α) :
    RegPreserved pyEq s s :=
  ⟨rfl, rfl, fun _ _ h => h⟩

theorem regPreserved_trans {pyEq : α → α → Bool} {s t u : AlgState α}
    (h₁ : RegPreserved pyEq s t) (h₂ : RegPreserved pyEq t u) :
    RegPreserved pyEq s u :=
  ⟨h₂.1.trans h₁.1, h₂.2.1.trans h₁.2.1,
    fun k e h => h₂.2.2 k e (h₁.2.2 k e h)⟩

theorem registryCall_preserves (pyEq : α → α → Bool) (s : AlgState α)
    (key erep : α) :
    RegPreserved pyEq s (registryCall pyEq s key erep).2 := by
  cases h : dictLookup pyEq key s.registry with
  | some e => rw [registryCall_hit pyEq s key erep e h]; exact ⟨rfl, rfl, fun _ _ h => h⟩
  | none =>
      rw [registryCall_fresh pyEq s key erep h]
      refine ⟨rfl, rfl, fun k e hk => ?_⟩
      simp only [dictLookup_append_out, hk]

theorem semigroupCall_preserves (pyEq : α → α → Bool) (s : AlgState α)
    (r : α) : RegPreserved pyEq s (semigroupCall pyEq s r).2 :=
  registryCall_preserves pyEq s _ _

theorem monoidCall_preserves (pyEq : α → α → Bool) (s : AlgState α)
    (r : α) : RegPreserved pyEq s (monoidCall pyEq s r).2 :=
  registryCall_preserves pyEq s _ _

theorem groupCall_preserves (pyEq : α → α → Bool) (s : AlgState α)
    (r : α) : RegPreserved pyEq s (groupCall pyEq s r).2 :=
  registryCall_preserves pyEq s _ _

theorem baseSetCall_preserves (pyEq : α → α → Bool) (s : AlgState α)
    (r : α) : RegPreserved pyEq s (baseSetCall pyEq s r).2 :=
  registryCall_preserves pyEq s _ _

theorem elemMul_preserves (pyEq : α → α → Bool)
    (call : (α → α → Bool) → AlgState α → α → Elem α × AlgState α)
    (hcall : ∀ s r, RegPreserved pyEq s ((call pyEq s r).2))
    (s : AlgState α) (a b : Elem α) :
    RegPreserved pyEq s (elemMul pyEq call s a b).2 := by
  unfold elemMul
  by_cases h : s.algId == b.alg
  · simp only [h, if_true]
    cases hm : s.config.mult with
    | some mult => exact hcall s _
    | none => exact regPreserved_rfl pyEq s
  · simp only [h, if_false]
    exact regPreserved_rfl pyEq s

theorem elemAdd_preserves (pyEq : α → α → Bool) (s : AlgState α)
    (a b : Elem α) : RegPreserved pyEq s (elemAdd pyEq s a b).2 := by
  unfold elemAdd
  by_cases h : s.algId == b.alg
  · simp only [h, if_true]
    cases hm : s.config.add with
    | some add => exact baseSetCall_preserves pyEq s _
    | none => exact regPreserved_rfl pyEq s
  · simp only [h, if_false]
    exact regPreserved_rfl pyEq s

theorem groupPowNegLoop_preserves (pyEq : α → α → Bool) :
    ∀ (k : Nat) (s : AlgState α) (g gInv : Elem α),
      RegPreserved pyEq s (groupPowNegLoop pyEq s g gInv k).2 := by
  intro k
  induction k with
  | zero => intro s g gInv; exact regPreserved_rfl pyEq s
  | succ k ih =>
      intro s g gInv
      have hmul := elemMul_preserves pyEq groupCall
        (fun s r => groupCall_preserves pyEq s r) s g gInv
      unfold groupPowNegLoop
      cases hres : elemMul pyEq groupCall s g gInv with
      | mk exv s₁ =>
          cases exv with
          | ok g₁ =>
              have h₁ : RegPreserved pyEq s s₁ := by rw [hres] at hmul; exact hmul
              exact regPreserved_trans h₁ (ih s₁ g₁ gInv)
          | error e =>
              have h₁ : RegPreserved pyEq s s₁ := by rw [hres] at hmul; exact hmul
              exact h₁

theorem semigroupPow_preserves (pyEq : α → α → Bool) (s : AlgState α)
    (x : Elem α) (n : Int) :
    RegPreserved pyEq s (semigroupPow pyEq s x n).2 := by
  unfold semigroupPow
  by_cases h : 0 < n
  · simp only [h, if_true]
    cases hm : s.config.mult with
    | some mult => exact semigroupCall_preserves pyEq s _
    | none => exact regPreserved_rfl pyEq s
  · simp only [h, if_false]
    exact regPreserved_rfl pyEq s

theorem monoidPow_preserves (pyEq : α → α → Bool) (s : AlgState α)
    (x : Elem α) (n : Int) :
    RegPreserved pyEq s (monoidPow pyEq s x n).2 := by
  unfold monoidPow
  by_cases h : 0 ≤ n
  · simp only [h, if_true]
    cases hm : s.config.mult with
    | some mult =>
        cases ho : s.config.one with
        | some one => exact monoidCall_preserves pyEq s _
        | none => exact regPreserved_rfl pyEq s
    | none => exact regPreserved_rfl pyEq s
  · simp only [h, if_false]
    exact regPreserved_rfl pyEq s

theorem groupInvert_preserves (pyEq : α → α → Bool) (s : AlgState α)
    (x : Elem α) : RegPreserved pyEq s (groupInvert s x).2 := by
  unfold groupInvert
  cases hi : s.config.inv with
  | some inv => exact ⟨rfl, rfl, fun _ _ h => h⟩
  | none => exact regPreserved_rfl pyEq s

theorem abelianNegate_preserves (pyEq : α → α → Bool) (s : AlgState α)
    (x : Elem α) : RegPreserved pyEq s (abelianNegate s x).2 := by
  unfold abelianNegate
  cases hn : s.config.neg with
  | some neg => exact ⟨rfl, rfl, fun _ _ h => h⟩
  | none => exact regPreserved_rfl pyEq s

theorem groupPow_preserves (pyEq : α → α → Bool) (s : AlgState α)
    (x : Elem α) (n : Int) :
    RegPreserved pyEq s (groupPow pyEq s x n).2 := by
  unfold groupPow
  by_cases h : 0 ≤ n
  · simp only [h, if_true]
    cases hm : s.config.mult with
    | some mult =>
        cases ho : s.config.one with
        | some one => exact groupCall_preserves pyEq s _
        | none => exact regPreserved_rfl pyEq s
    | none => exact regPreserved_rfl pyEq s
  · simp only [h, if_false]
    have hinv := groupInvert_preserves pyEq s x
    cases hres : groupInvert s x with
    | mk exv s₁ =>
        rw [hres] at hinv
        cases exv with
        | ok gInv =>
            exact regPreserved_trans hinv
              (groupPowNegLoop_preserves pyEq _ s₁ gInv gInv)
        | error e => exact hinv

theorem additiveMulInt_preserves (pyEq : α → α → Bool) (s : AlgState α)
    (x : Elem α) (n : Int) :
    RegPreserved pyEq s (additiveMulInt pyEq s x n).2 := by
  unfold additiveMulInt
  by_cases h : 0 < n
  · simp only [h, if_true]
    cases hm : s.config.add with
    | some add => exact baseSetCall_preserves pyEq s _
    | none => exact regPreserved_rfl pyEq s
  · simp only [h, if_false]
    exact regPreserved_rfl pyEq s

theorem powAccLoop_succ_out (op : α → α → α) :
    ∀ (n : Nat) (r r1 : α),
      powAccLoop op r r1 (n + 1) = op (powAccLoop op r r1 n) r1 := by
  intro n
  induction n with
  | zero => intro r r1; rfl
  | succ n ih =>
      intro r r1
      show powAccLoop op (op r r1) r1 (n + 1) = op (powAccLoop op (op r r1) r1 n) r1
      exact ih (op r r1) r1

theorem powAccLoop_eq_nfoldMult (op : α → α → α) (one rep : α) :
    ∀ n : Nat, powAccLoop op one rep n = nfoldMult op one rep n := by
  intro n
  induction n with
  | zero => rfl
  | succ n ih => rw [powAccLoop_succ_out, ih]; rfl

theorem powAccLoop_eq_nfoldFrom (op : α → α → α) (a : α) :
    ∀ k : Nat, powAccLoop op a a k = nfoldFrom op a k := by
  intro k
  induction k with
  | zero => rfl
  | succ k ih => rw [powAccLoop_succ_out, ih]; rfl

theorem groupCall_coherent [DecidableEq α] (s : AlgState α) (r : α)
    (hn : s.config.narrow = fun h => h) (hc : Coherent s) :
    ((groupCall deq s r).1).rep = r
    ∧ Coherent ((groupCall deq s r).2)
    ∧ ((groupCall deq s r).2).config = s.config
    ∧ ((groupCall deq s r).2).algId = s.algId := by
  unfold groupCall
  cases h : dictLookup deq r s.registry with
  | some e =>
      rw [registryCall_hit deq s r (s.config.narrow r) e h]
      exact ⟨hc r e h, hc, rfl, rfl⟩
  | none =>
      rw [registryCall_fresh deq s r (s.config.narrow r) h]
      refine ⟨by rw [hn], ?_, rfl, rfl⟩
      intro k e hk
      rw [dictLookup_append_out] at hk
      cases h' : dictLookup deq k s.registry with
      | some e' => rw [h'] at hk; cases hk; exact hc k e h'
      | none =>
          rw [h'] at hk
          by_cases hkey : deq r k
          · simp only [dictLookup, hkey, if_true] at hk
            cases hk
            have : r = k := of_decide_eq_true hkey
            rw [← this, hn]
          · simp only [dictLookup, hkey, if_false] at hk
            cases hk

theorem groupPowNegLoop_rep [DecidableEq α] (m : α → α → α) :
    ∀ (k : Nat) (s : AlgState α) (g gInv : Elem α),
      s.config.mult = some m → s.config.narrow = (fun h => h) →
      Coherent s → gInv.alg = s.algId →
      ∃ e s', groupPowNegLoop deq s g gInv k = (Except.ok e, s')
        ∧ e.rep = powAccLoop m g.rep gInv.rep k := by
  intro k
  induction k with
  | zero =>
      intro s g gInv hm hn hc halg
      exact ⟨g, s, rfl, rfl⟩
  | succ k ih =>
      intro s g gInv hm hn hc halg
      have halgb : (s.algId == gInv.alg) = true := by
        rw [halg]; exact beq_self_eq_true s.algId
      have hspec := groupCall_coherent s (m g.rep gInv.rep) hn hc
      have hstep : elemMul deq groupCall s g gInv
          = (Except.ok (groupCall deq s (m g.rep gInv.rep)).1,
             (groupCall deq s (m g.rep gInv.rep)).2) := by
        unfold elemMul
        rw [halgb, if_pos rfl, hm]
      obtain ⟨hrep, hcoh, hcfg, hid⟩ := hspec
      obtain ⟨e, s', hloop, herep⟩ := ih (groupCall deq s (m g.rep gInv.rep)).2
        (groupCall deq s (m g.rep gInv.rep)).1 gInv
        (by rw [hcfg]; exact hm) (by rw [hcfg]; exact hn) hcoh
        (by rw [hid]; exact halg)
      refine ⟨e, s', ?_, ?_⟩
      · unfold groupPowNegLoop
        rw [hstep]
        exact hloop
      · rw [herep, hrep]
        rfl

theorem deq_symm [DecidableEq α] : ∀ x y : α, deq x y = deq y x := by
  intro x y
  unfold deq
  by_cases h : x = y
  · simp [h]
  · have h' : ¬y = x := fun hyx => h hyx.symm
    simp [h, h']

theorem deq_trans [DecidableEq α] :
    ∀ x y z : α, deq x y = true → deq y z = true → deq x z = true := by
  intro x y z h₁ h₂
  unfold deq at h₁ h₂ ⊢
  rw [of_decide_eq_true h₁, of_decide_eq_true h₂]
  simp

/-- C1: for every algebra instance, `__call__` memoizes: the three
`__call__` bodies are the common `setdefault` pattern (first conjunct); a
call whose key is absent returns a newly allocated element and appends
exactly that one entry (second conjunct); a call whose key is present
returns the identical registered object with the registry untouched (third
conjunct); and after a first call on an absent key, any later call with a
`==`-equal key returns the identical element object and leaves the registry
unchanged (fourth conjunct). -/
theorem c1_call_memoizes (pyEq : α → α → Bool) (s : AlgState α)
    (hsymm : ∀ x y, pyEq x y = pyEq y x)
    (htrans : ∀ x y z, pyEq x y = true → pyEq y z = true → pyEq x z = true) :
    (∀ r, semigroupCall pyEq s r
        = registryCall pyEq s (s.config.narrow r) (s.config.narrow (s.config.narrow r))
      ∧ monoidCall pyEq s r = registryCall pyEq s r (s.config.narrow r)
      ∧ baseSetCall pyEq s r = registryCall pyEq s r r)
    ∧ (∀ key erep, dictLookup pyEq key s.registry = none →
        (registryCall pyEq s key erep).2.registry
          = s.registry ++ [(key, (registryCall pyEq s key erep).1)]
        ∧ (registryCall pyEq s key erep).1 = ⟨s.nextOid, erep, s.algId⟩)
    ∧ (∀ key erep e, dictLookup pyEq key s.registry = some e →
        (registryCall pyEq s key erep).1 = e
        ∧ (registryCall pyEq s key erep).2.registry = s.registry)
    ∧ (∀ key erep key' erep',
        dictLookup pyEq key s.registry = none → pyEq key' key = true →
        (registryCall pyEq (registryCall pyEq s key erep).2 key' erep').1
            = (registryCall pyEq s key erep).1
        ∧ (registryCall pyEq (registryCall pyEq s key erep).2 key' erep').2.registry
            = (registryCall pyEq s key erep).2.registry) := by
  refine ⟨fun r => ⟨rfl, rfl, rfl⟩, ?_, ?_, ?_⟩
  · intro key erep h
    rw [registryCall_fresh pyEq s key erep h]
    exact ⟨rfl, rfl⟩
  · intro key erep e h
    rw [registryCall_hit pyEq s key erep e h]
    exact ⟨rfl, rfl⟩
  · intro key erep key' erep' hnone hkey
    have hnone' : dictLookup pyEq key' s.registry = none := by
      rw [dictLookup_eq_none_iff]
      intro p hp
      cases hb : pyEq p.1 key' with
      | false => rfl
      | true =>
          have h1 := htrans p.1 key' key hb hkey
          have h2 := (dictLookup_eq_none_iff pyEq key s.registry).mp hnone p hp
          rw [h1] at h2
          exact Bool.noConfusion h2
    have hkey' : pyEq key key' = true := by rw [hsymm key key']; exact hkey
    have hlk : dictLookup pyEq key'
        ((registryCall pyEq s key erep).2).registry
          = some (registryCall pyEq s key erep).1 := by
      rw [registryCall_fresh pyEq s key erep hnone]
      simp only [dictLookup_append_out, hnone', dictLookup, hkey', if_true]
    rw [registryCall_hit pyEq _ key' erep' _ hlk]
    exact ⟨rfl, rfl⟩

/-- C1 witness: on a fresh `Semigroup(lambda a, b: a + b)` over `int`, the
first call on rep 5 allocates element oid 0 and inserts exactly the entry
`(5, that element)`; a second call on an equal rep returns the identical
object and leaves the registry unchanged. -/
theorem c1_call_memoizes_witness :
    (registryCall deq sg1 5 5).2.registry
        = sg1.registry ++ [(5, (registryCall deq sg1 5 5).1)]
    ∧ (registryCall deq sg1 5 5).1 = ⟨0, 5, 1⟩
    ∧ (registryCall deq (registryCall deq sg1 5 5).2 5 5).1
        = (registryCall deq sg1 5 5).1
    ∧ (registryCall deq (registryCall deq sg1 5 5).2 5 5).2.registry
        = (registryCall deq sg1 5 5).2.registry := by
  have h := c1_call_memoizes deq sg1 deq_symm deq_trans
  have hnone : dictLookup deq (5 : Int) sg1.registry = none := rfl
  have h2 := h.2.1 5 5 hnone
  have h4 := h.2.2.2 5 5 5 5 hnone (by decide)
  exact ⟨h2.1, h2.2, h4.1, h4.2⟩

/-- C5: when two elements of the same element class belong to two different
concrete algebra instances, `__mul__` (semigroup chain) and `__add__`
(additive chain) raise `ValueError` with the state untouched — the stored
closure is never reached, whatever closure (if any) the state carries and
whatever registry call would be dispatched. -/
theorem c5_cross_algebra_raises (pyEq : α → α → Bool)
    (call : (α → α → Bool) → AlgState α → α → Elem α × AlgState α)
    (s : AlgState α) (a b : Elem α)
    (_ha : a.alg = s.algId) (hb : b.alg ≠ s.algId) :
    elemMul pyEq call s a b = (Except.error PyErr.valueError, s)
    ∧ elemAdd pyEq s a b = (Except.error PyErr.valueError, s) := by
  have hb' : s.algId ≠ b.alg := fun h => hb h.symm
  have hbeq : (s.algId == b.alg) = false := by
    exact beq_eq_false_iff_ne.mpr hb'
  constructor
  · unfold elemMul
    rw [hbeq]
    rfl
  · unfold elemAdd
    rw [hbeq]
    rfl

/-- C5 witness: elements with reps 2 and 3 owned by the distinct concrete
instances with identities 1 and 2; both `a * b` and `a + b` raise
`ValueError`. -/
theorem c5_cross_algebra_raises_witness :
    elemMul deq semigroupCall sg1 ⟨0, 2, 1⟩ ⟨0, 3, 2⟩
        = (Except.error PyErr.valueError, sg1)
    ∧ elemAdd deq sg1 ⟨0, 2, 1⟩ ⟨0, 3, 2⟩
        = (Except.error PyErr.valueError, sg1) :=
  c5_cross_algebra_raises deq semigroupCall sg1 ⟨0, 2, 1⟩ ⟨0, 3, 2⟩ rfl
    (by decide)

/-- C6: with both operands in the same concrete instance the operators
delegate to the stored closures: a semigroup built from `mult` and `narrow`
stores the closure applying `narrow` to the product (first conjunct, the
closure itself spec-modelled in `storedMult`), and `a * b` returns exactly
what `Semigroup.__call__` yields on that closure's result (second conjunct);
`a + b` on the additive chain returns what the inherited legacy
`BaseSet.__call__` yields on `add` of the two reps (third conjunct). -/
theorem c6_same_algebra_delegates (pyEq : α → α → Bool) (algId : Nat)
    (mult : α → α → α) (narrow : α → α) (add : α → α → α)
    (s t : AlgState α) (a b c d : Elem α)
    (hmul : s.config.mult = some (storedMult mult narrow))
    (hb : b.alg = s.algId)
    (hadd : t.config.add = some add)
    (hd : d.alg = t.algId) :
    (semigroupInit algId mult narrow).config.mult
        = some (storedMult mult narrow)
    ∧ elemMul pyEq semigroupCall s a b
        = (Except.ok (semigroupCall pyEq s (narrow (mult a.rep b.rep))).1,
           (semigroupCall pyEq s (narrow (mult a.rep b.rep))).2)
    ∧ elemAdd pyEq t c d
        = (Except.ok (baseSetCall pyEq t (add c.rep d.rep)).1,
           (baseSetCall pyEq t (add c.rep d.rep)).2) := by
  have hbeq : (s.algId == b.alg) = true := by rw [hb]; exact beq_self_eq_true _
  have hdeq : (t.algId == d.alg) = true := by rw [hd]; exact beq_self_eq_true _
  refine ⟨rfl, ?_, ?_⟩
  · unfold elemMul
    rw [hbeq, if_pos rfl, hmul]
    rfl
  · unfold elemAdd
    rw [hdeq, if_pos rfl, hadd]

/-- C6 witness: in `sg1` (semigroup over `int` with `mult = +`, identity
narrow), multiplying the element of rep 2 by the element of rep 3 yields the
canonical element of rep 5, freshly registered; adding inside an additive
instance with `add = +` behaves alike. -/
theorem c6_same_algebra_delegates_witness :
    elemMul deq semigroupCall sg1 ⟨0, 2, 1⟩ ⟨1, 3, 1⟩
        = (Except.ok (semigroupCall deq sg1 5).1, (semigroupCall deq sg1 5).2)
    ∧ (semigroupCall deq sg1 5).1 = ⟨0, 5, 1⟩
    ∧ elemAdd deq (abelianGroupInit 2 (fun a b => a + b) 0 (fun a => -a))
        ⟨0, 2, 2⟩ ⟨1, 3, 2⟩
        = (Except.ok
            (baseSetCall deq
              (abelianGroupInit 2 (fun a b => a + b) 0 (fun a => -a)) 5).1,
           (baseSetCall deq
              (abelianGroupInit 2 (fun a b => a + b) 0 (fun a => -a)) 5).2) := by
  have h := c6_same_algebra_delegates deq 1 (fun a b : Int => a + b)
    (fun h => h) (fun a b : Int => a + b) sg1
    (abelianGroupInit 2 (fun a b => a + b) 0 (fun a => -a))
    ⟨0, 2, 1⟩ ⟨1, 3, 1⟩ ⟨0, 2, 2⟩ ⟨1, 3, 2⟩ rfl rfl rfl rfl
  exact ⟨h.2.1, rfl, h.2.2⟩

/-- C7: raising a semigroup or magma element to an integer power `n <= 0`,
and multiplying an additive-semigroup element by an integer `n <= 0`, raise
`ValueError` before anything is computed, leaving the whole state (registry
included) unchanged. -/
theorem c7_nonpositive_pow_raises (pyEq : α → α → Bool) (s : AlgState α)
    (x : Elem α) (n : Int) (hn : n ≤ 0) :
    semigroupPow pyEq s x n = (Except.error PyErr.valueError, s)
    ∧ magmaPow pyEq s x n = (Except.error PyErr.valueError, s)
    ∧ additiveMulInt pyEq s x n = (Except.error PyErr.valueError, s) := by
  have h : ¬ 0 < n := by omega
  refine ⟨?_, ?_, ?_⟩
  · unfold semigroupPow
    rw [if_neg h]
  · unfold magmaPow
    rw [if_neg h]
  · unfold additiveMulInt
    rw [if_neg h]

/-- C7 witness: `x ** 0` and `x * (-3)` on concrete elements of `sg1` raise
`ValueError` and return the state unchanged. -/
theorem c7_nonpositive_pow_raises_witness :
    semigroupPow deq sg1 ⟨0, 2, 1⟩ 0 = (Except.error PyErr.valueError, sg1)
    ∧ magmaPow deq sg1 ⟨0, 2, 1⟩ 0 = (Except.error PyErr.valueError, sg1)
    ∧ additiveMulInt deq sg1 ⟨0, 2, 1⟩ (-3)
        = (Except.error PyErr.valueError, sg1) := by
  have h₀ := c7_nonpositive_pow_raises deq sg1 ⟨0, 2, 1⟩ 0 (by decide)
  have h₁ := c7_nonpositive_pow_raises deq sg1 ⟨0, 2, 1⟩ (-3) (by decide)
  exact ⟨h₀.1, h₀.2.1, h₁.2.2⟩

/-- C10: the only state effect of wrapping and of the element operators is
registry insertion: every modelled operation leaves the algebra identity and
all stored closures and identity values unchanged, and every registry entry
present before is still found afterwards bound to the identical element
object (lookups go through `setdefault`-style insertion only). -/
theorem c10_ops_preserve_registry (pyEq : α → α → Bool) (s : AlgState α)
    (r key erep : α) (a b x : Elem α) (n : Int) :
    RegPreserved pyEq s (registryCall pyEq s key erep).2
    ∧ RegPreserved pyEq s (semigroupCall pyEq s r).2
    ∧ RegPreserved pyEq s (monoidCall pyEq s r).2
    ∧ RegPreserved pyEq s (groupCall pyEq s r).2
    ∧ RegPreserved pyEq s (baseSetCall pyEq s r).2
    ∧ RegPreserved pyEq s (elemMul pyEq semigroupCall s a b).2
    ∧ RegPreserved pyEq s (elemMul pyEq groupCall s a b).2
    ∧ RegPreserved pyEq s (elemAdd pyEq s a b).2
    ∧ RegPreserved pyEq s (semigroupPow pyEq s x n).2
    ∧ RegPreserved pyEq s (monoidPow pyEq s x n).2
    ∧ RegPreserved pyEq s (groupPow pyEq s x n).2
    ∧ RegPreserved pyEq s (additiveMulInt pyEq s x n).2
    ∧ RegPreserved pyEq s (groupInvert s x).2
    ∧ RegPreserved pyEq s (abelianNegate s x).2 :=
  ⟨registryCall_preserves pyEq s key erep,
   semigroupCall_preserves pyEq s r,
   monoidCall_preserves pyEq s r,
   groupCall_preserves pyEq s r,
   baseSetCall_preserves pyEq s r,
   elemMul_preserves pyEq semigroupCall
     (fun s r => semigroupCall_preserves pyEq s r) s a b,
   elemMul_preserves pyEq groupCall
     (fun s r => groupCall_preserves pyEq s r) s a b,
   elemAdd_preserves pyEq s a b,
   semigroupPow_preserves pyEq s x n,
   monoidPow_preserves pyEq s x n,
   groupPow_preserves pyEq s x n,
   additiveMulInt_preserves pyEq s x n,
   groupInvert_preserves pyEq s x,
   abelianNegate_preserves pyEq s x⟩

/-- C8 counterexample: on an abelian-group element whose algebra has a
registered negate closure, `-x` raises `NotImplementedError`
(baseset/__init__.py lines 69-70, the `BaseElement` the additive chain
inherits from), not `TypeError` as the claim states. -/
theorem c8_neg_counterexample :
    (baseSetCall deq agZ 5).2.config.neg.isSome = true
    ∧ legacyNeg (baseSetCall deq agZ 5).2 (baseSetCall deq agZ 5).1
        = (Except.error PyErr.notImplementedError, (baseSetCall deq agZ 5).2)
    ∧ PyErr.notImplementedError ≠ PyErr.typeError :=
  ⟨rfl, rfl, by decide⟩

/-- C8 (amended): unary minus never succeeds on any element, but the
exception depends on the base class: elements of the multiplicative chain
(inheriting baseset.py's `BaseElement`) raise `TypeError`, elements of the
additive chain — abelian group, ring, field — (inheriting
baseset/__init__.py's `BaseElement`) raise `NotImplementedError`; additive
negation is reachable only through `negate()`, which returns a fresh element
wrapping `negate(rep)` when the closure is registered and raises
`ValueError` when it is absent. -/
theorem c8_neg_amended (s : AlgState α) (x : Elem α) :
    baseNeg s x = (Except.error PyErr.typeError, s)
    ∧ legacyNeg s x = (Except.error PyErr.notImplementedError, s)
    ∧ (∀ f, s.config.neg = some f →
        abelianNegate s x
          = (Except.ok ⟨s.nextOid, f x.rep, s.algId⟩,
             { s with nextOid := s.nextOid + 1 }))
    ∧ (s.config.neg = none →
        abelianNegate s x = (Except.error PyErr.valueError, s)) := by
  refine ⟨rfl, rfl, ?_, ?_⟩
  · intro f hf
    unfold abelianNegate
    rw [hf]
  · intro hf
    unfold abelianNegate
    rw [hf]

/-- C8 witness: on `agZ` (negate closure registered) `negate()` yields the
fresh element of rep `-5`, while on `sg1` (no negate closure) it raises
`ValueError`; both kinds of unary minus raise. -/
theorem c8_neg_amended_witness :
    baseNeg sg1 ⟨0, 2, 1⟩ = (Except.error PyErr.typeError, sg1)
    ∧ legacyNeg agZ ⟨0, 5, 4⟩ = (Except.error PyErr.notImplementedError, agZ)
    ∧ abelianNegate agZ ⟨0, 5, 4⟩
        = (Except.ok ⟨0, -5, 4⟩, { agZ with nextOid := 1 })
    ∧ abelianNegate sg1 ⟨0, 2, 1⟩ = (Except.error PyErr.valueError, sg1) := by
  have h₁ := c8_neg_amended sg1 (⟨0, 2, 1⟩ : Elem Int)
  have h₂ := c8_neg_amended agZ (⟨0, 5, 4⟩ : Elem Int)
  refine ⟨h₁.1, h₂.2.1, ?_, h₁.2.2.2 rfl⟩
  have h₃ := h₂.2.2.1 (fun a => -a) rfl
  rw [h₃]
  rfl

/-- C9 counterexample: two distinct additive-chain element objects wrapping
reps `1` and `True` compare equal under the legacy `BaseElement.__eq__`
(baseset/__init__.py lines 54-61) although the reps' runtime types differ,
so equality does not hold "exactly when the reps compare equal and are of
the same runtime type (or the objects are identical)" as claimed. -/
theorem c9_eq_counterexample :
    legacyEq pyVEq true ⟨0, PyV.i 1, 4⟩ ⟨1, PyV.b true, 4⟩ = true
    ∧ ((0 : Nat) == 1
        || (pyVEq (PyV.i 1) (PyV.b true)
            && pyVSameType (PyV.i 1) (PyV.b true))) = false := by
  decide

/-- C9 (amended): element equality ignores the owning algebra and an element
never equals a non-element; for element classes inheriting baseset.py's
`BaseElement` (the magma/semigroup/monoid/group chain) `a == b` holds iff
the objects are identical or the reps compare equal and share a runtime
type, while for classes inheriting baseset/__init__.py's `BaseElement` (the
additive chain: abelian group, ring, field) `a == b` holds iff the objects
are identical or the reps compare equal, with no runtime-type requirement. -/
theorem c9_eq_amended (pyEq sameType : α → α → Bool) (a b : Elem α) :
    baseEq pyEq sameType true a b
        = (a.oid == b.oid || (pyEq a.rep b.rep && sameType a.rep b.rep))
    ∧ legacyEq pyEq true a b = (a.oid == b.oid || pyEq a.rep b.rep)
    ∧ baseEq pyEq sameType false a b = false
    ∧ legacyEq pyEq false a b = false
    ∧ (∀ g g', baseEq pyEq sameType true ⟨a.oid, a.rep, g⟩ ⟨b.oid, b.rep, g'⟩
          = baseEq pyEq sameType true a b)
    ∧ (∀ g g', legacyEq pyEq true ⟨a.oid, a.rep, g⟩ ⟨b.oid, b.rep, g'⟩
          = legacyEq pyEq true a b) := by
  refine ⟨?_, ?_, rfl, rfl, fun g g' => rfl, fun g g' => rfl⟩
  · unfold baseEq
    cases h₁ : (a.oid == b.oid) <;> cases h₂ : pyEq a.rep b.rep <;>
      cases h₃ : sameType a.rep b.rep <;> simp [h₁, h₂, h₃]
  · unfold legacyEq
    cases h₁ : (a.oid == b.oid) <;> cases h₂ : pyEq a.rep b.rep <;>
      simp [h₁, h₂]

/-- C2: constructing a `Ring` or `Field` raises `TypeError` — `Ring.__init__`
always forwards the keyword `process` to `AbelianGroup.__init__`, whose
parameters are only `(self, add, zero, negate)` — and calling a `Magma`,
`Ring` or `Field` instance raises `AttributeError`, because their `__call__`
reads `self._process` while no initializer on either base chain ever sets
that attribute. -/
theorem c2_construction_and_call_raise :
    pyKwargsCall abelianGroupInitParams ringSuperInitKwargs
        = some PyErr.typeError
    ∧ pyHasAttr magmaInstanceAttrs processAttr = false
    ∧ pyHasAttr ringInstanceAttrs processAttr = false
    ∧ magmaCall deq (magmaInit 3 (fun a b : Int => a * b) (fun h => h)) 2
        = (Except.error PyErr.attributeError,
           magmaInit 3 (fun a b : Int => a * b) (fun h => h))
    ∧ ringCall deq f7 3 = (Except.error PyErr.attributeError, f7) := by
  have hm : pyHasAttr magmaInstanceAttrs processAttr = false := by decide
  have hr : pyHasAttr ringInstanceAttrs processAttr = false := by decide
  refine ⟨by decide, hm, hr, ?_, ?_⟩
  · unfold magmaCall
    rw [hm]
    rfl
  · unfold ringCall
    rw [hr]
    rfl

/-- C3: evaluation of the code at the failing input.  After `x = z5(2)` the
registry binds rep 2 to the registered element; `x.invert()` returns a
freshly constructed object (oid 1) wrapping rep 3 that is absent from the
registry, and the later `z5(3)` registers a different object (oid 2) with
the same rep — two observably distinct element objects for one
representation, violating the registered-singleton claim. -/
theorem c3_invert_bypasses_registry :
    dictLookup deq 2 z5s1.registry = some z5x
    ∧ (groupInvert z5s1 z5x).1 = Except.ok ⟨1, 3, 7⟩
    ∧ (groupInvert z5s1 z5x).2.registry = z5s1.registry
    ∧ dictLookup deq 3 ((groupInvert z5s1 z5x).2).registry = none
    ∧ (groupCall deq ((groupInvert z5s1 z5x).2) 3).1 = ⟨2, 3, 7⟩
    ∧ (⟨2, 3, 7⟩ : Elem Int) ≠ ⟨1, 3, 7⟩
    ∧ (⟨2, 3, 7⟩ : Elem Int).rep = (⟨1, 3, 7⟩ : Elem Int).rep := by
  refine ⟨by decide, rfl, by decide, by decide, rfl, by decide, rfl⟩

/-- C4: the integer power operator is plain iterated application.  For
`n >= 0`, `MonoidElement.__pow__` and `GroupElement.__pow__` return exactly
the algebra's element for the n-fold product
`mult(...mult(mult(one, rep), rep)..., rep)` starting from the stored
identity (so `x ** 0` is the identity's element); for `n < 0` on a group the
result is the inverse element's rep multiplied into itself `|n|` times.  The
last two conjuncts evaluate `FieldElement.__pow__` at the failing input: on
the (granted) mod-7 field state it raises `AttributeError` at the final
`Field.__call__`, for positive and negative exponents alike, instead of
returning the iterated product's element. -/
theorem c4_pow_iterated_operation [DecidableEq α] (pyEq : α → α → Bool)
    (s t : AlgState α) (x y : Elem α) (m : α → α → α) (o : α) (i : α → α)
    (n k : Nat)
    (hm : s.config.mult = some m) (ho : s.config.one = some o)
    (htm : t.config.mult = some m) (hto : t.config.one = some o)
    (hti : t.config.inv = some i) (htn : t.config.narrow = fun h => h)
    (htc : Coherent t) :
    monoidPow pyEq s x (Int.ofNat n)
        = (Except.ok (monoidCall pyEq s (nfoldMult m o x.rep n)).1,
           (monoidCall pyEq s (nfoldMult m o x.rep n)).2)
    ∧ monoidPow pyEq s x 0
        = (Except.ok (monoidCall pyEq s o).1, (monoidCall pyEq s o).2)
    ∧ groupPow pyEq t y (Int.ofNat n)
        = (Except.ok (groupCall pyEq t (nfoldMult m o y.rep n)).1,
           (groupCall pyEq t (nfoldMult m o y.rep n)).2)
    ∧ (∃ e s', groupPow deq t y (Int.negSucc k) = (Except.ok e, s')
        ∧ e.rep = nfoldFrom m (i y.rep) k)
    ∧ fieldPow deq f7 ⟨0, 3, 9⟩ 3 = (Except.error PyErr.attributeError, f7)
    ∧ fieldPow deq f7 ⟨0, 3, 9⟩ (-3)
        = (Except.error PyErr.attributeError, { f7 with nextOid := 1 }) := by
  have hofNat : (0 : Int) ≤ Int.ofNat n := by
    rw [Int.ofNat_eq_natCast]
    omega
  have htoNat : (Int.ofNat n).toNat = n := by
    rw [Int.ofNat_eq_natCast]
    omega
  refine ⟨?_, ?_, ?_, ?_, ?_, ?_⟩
  · unfold monoidPow
    rw [if_pos hofNat, hm, ho, htoNat]
    show (Except.ok (monoidCall pyEq s (powAccLoop m o x.rep n)).1,
        (monoidCall pyEq s (powAccLoop m o x.rep n)).2) = _
    rw [powAccLoop_eq_nfoldMult]
  · unfold monoidPow
    rw [if_pos (by omega : (0 : Int) ≤ 0), hm, ho]
    rfl
  · unfold groupPow
    rw [if_pos hofNat, htm, hto, htoNat]
    show (Except.ok (groupCall pyEq t (powAccLoop m o y.rep n)).1,
        (groupCall pyEq t (powAccLoop m o y.rep n)).2) = _
    rw [powAccLoop_eq_nfoldMult]
  · have hneg : ¬ (0 : Int) ≤ Int.negSucc k := by
      have := Int.negSucc_lt_zero k
      omega
    have harg : (-(Int.negSucc k)).toNat - 1 = k := by
      rw [Int.neg_negSucc]
      simp
    have hginv : groupInvert t y
        = (Except.ok ⟨t.nextOid, i y.rep, t.algId⟩,
           { t with nextOid := t.nextOid + 1 }) := by
      simp only [groupInvert, hti, htn]
    unfold groupPow
    rw [if_neg hneg, hginv, harg]
    have hc₁ : Coherent { t with nextOid := t.nextOid + 1 } := htc
    obtain ⟨e, s', hloop, hrep⟩ :=
      groupPowNegLoop_rep m k { t with nextOid := t.nextOid + 1 }
        ⟨t.nextOid, i y.rep, t.algId⟩ ⟨t.nextOid, i y.rep, t.algId⟩
        htm htn hc₁ rfl
    refine ⟨e, s', hloop, ?_⟩
    rw [hrep]
    show powAccLoop m (i y.rep) (i y.rep) k = nfoldFrom m (i y.rep) k
    rw [powAccLoop_eq_nfoldFrom]
  · rfl
  · rfl

/-- C4 witness: `x ** 2` in the mod-7 monoid `m7` is the registered element
of `mult(mult(1, 3), 3)`; `y ** (-2)` in the mod-7 group `g7` succeeds with
the rep equal to the product of two copies of `invert(3)`; the field power
at the failing input raises `AttributeError`. -/
theorem c4_pow_iterated_operation_witness :
    monoidPow deq m7 ⟨0, 3, 5⟩ (Int.ofNat 2)
        = (Except.ok (monoidCall deq m7
            (nfoldMult (storedMult (fun a b : Int => (a * b) % 7) (fun h => h))
              1 3 2)).1,
           (monoidCall deq m7
            (nfoldMult (storedMult (fun a b : Int => (a * b) % 7) (fun h => h))
              1 3 2)).2)
    ∧ (∃ e s', groupPow deq g7 ⟨0, 3, 6⟩ (Int.negSucc 1) = (Except.ok e, s')
        ∧ e.rep = nfoldFrom
            (storedMult (fun a b : Int => (a * b) % 7) (fun h => h))
            ((fun a : Int => (a * a * a * a * a) % 7) 3) 1)
    ∧ fieldPow deq f7 ⟨0, 3, 9⟩ 3 = (Except.error PyErr.attributeError, f7) := by
  have h := c4_pow_iterated_operation deq m7 g7 ⟨0, 3, 5⟩ ⟨0, 3, 6⟩
    (storedMult (fun a b : Int => (a * b) % 7) (fun h => h)) 1
    (fun a : Int => (a * a * a * a * a) % 7) 2 1
    rfl rfl rfl rfl rfl rfl (fun k e hk => Option.noConfusion hk)
  exact ⟨h.1, h.2.2.2.1, h.2.2.2.2.1⟩

